import Mathlib

/-!
Verification of the subscription-batching / async-result design in
`packages/realm-react/example/idea.tsx`.

The file has two layers:

* a shallow embedding of the one piece of executable logic the source
  contains, the `useAddSubscription` hook (its `addSubscription` closure and
  the hook body), including just enough JavaScript semantics (truthiness of
  values, the completion value of a function body) to be faithful to it;
* models of the `AsyncOperationTracker` and `SubscriptionBatchCoordinator`
  components, which the design document describes but whose implementation is
  not part of the source file; these are marked `Modelled from the spec:` in
  their doc comments.
-/

namespace RealmIdea

/-- JavaScript runtime values, as far as the sketch needs them: `undefined`,
`null`, booleans, numbers, strings, and (references to) plain objects. -/
inductive JSValue where
  | vUndefined
  | vNull
  | vBool (b : Bool)
  | vNum (n : Int)
  | vStr (s : String)
  | vObj
deriving DecidableEq, Repr

/-- JavaScript truthiness: `undefined` and `null` are falsy, a boolean is
itself, a number is truthy unless it is zero, a string is truthy unless it is
empty, and every object is truthy. -/
def truthy : JSValue → Bool
  | .vUndefined => false
  | .vNull => false
  | .vBool b => b
  | .vNum n => decide (n ≠ 0)
  | .vStr s => decide (s ≠ "")
  | .vObj => true

/-- An opaque query descriptor (`Realm.Results` in the source); the batching
logic only stores and forwards these. -/
abbrev Query := String

/-- A React ref cell, as returned by `useRef`: an object with a `current`
field. -/
structure RefCell (α : Type) where
  current : α
deriving DecidableEq, Repr

/-- The JavaScript value a ref cell denotes when used in an expression:
`useRef` returns a plain object, so the ref itself (as opposed to its
`current` field) is an object value. -/
def RefCell.asJS {α : Type} (_ : RefCell α) : JSValue := .vObj

/-- The mutable state of one mounted `useAddSubscription` hook: the
`updates` ref (a list of queued queries), the `waitingForFlush` ref, and the
number of flush callbacks handed to `setImmediate` so far. -/
structure UseAddSubscriptionState where
  updates : RefCell (List Query)
  waitingForFlush : RefCell Bool
  scheduledFlushes : Nat
deriving DecidableEq, Repr

/-- State of the hook right after mount: `useRef([])` and `useRef(false)`,
no flush scheduled. -/
def initHook : UseAddSubscriptionState :=
  { updates := ⟨[]⟩, waitingForFlush := ⟨false⟩, scheduledFlushes := 0 }

/-- The `addSubscription` closure of `useAddSubscription`, transcribed from
the source: it pushes the query onto `updates.current`, then tests
`!waitingForFlush` — the negation of the ref object itself, not of its
`current` field — and only inside that branch sets `waitingForFlush.current`
and schedules the flush via `setImmediate`.  The arrow-function body is a
block with no `return` statement, so the call evaluates to `undefined`. -/
def addSubscription (query : Query) (s : UseAddSubscriptionState) :
    UseAddSubscriptionState × JSValue :=
  let s1 := { s with updates := ⟨s.updates.current ++ [query]⟩ }
  let s2 :=
    if !(truthy s1.waitingForFlush.asJS) then
      { s1 with waitingForFlush := ⟨true⟩, scheduledFlushes := s1.scheduledFlushes + 1 }
    else s1
  (s2, JSValue.vUndefined)

/-- Run a sequence of `addSubscription` calls against a hook state. -/
def applyAdds (qs : List Query) (s : UseAddSubscriptionState) : UseAddSubscriptionState :=
  qs.foldl (fun t q => (addSubscription q t).1) s

/-- A JavaScript statement, as far as the hook body needs: a `const`
declaration or a `return` statement. -/
inductive JSStmt where
  | constDecl (name : String)
  | returnStmt (v : JSValue)
deriving DecidableEq, Repr

/-- Test for a return statement. -/
def JSStmt.isReturnStmt : JSStmt → Bool
  | .returnStmt _ => true
  | .constDecl _ => false

/-- The statement list of the `useAddSubscription` function body, transcribed
from the source: three `const` declarations (`updates`, `waitingForFlush`,
`addSubscription`) and nothing else — in particular no `return`. -/
def useAddSubscriptionBody : List JSStmt :=
  [.constDecl "updates", .constDecl "waitingForFlush", .constDecl "addSubscription"]

/-- Completion value of a JavaScript function body: the argument of the first
`return` statement reached, or `undefined` when the body falls off its end. -/
def functionCompletionValue : List JSStmt → JSValue
  | [] => .vUndefined
  | .returnStmt v :: _ => v
  | .constDecl _ :: rest => functionCompletionValue rest

/-- What a call of `useAddSubscription` evaluates to. -/
def useAddSubscriptionReturn : JSValue :=
  functionCompletionValue useAddSubscriptionBody

/-- Modelled from the spec: the closed error taxonomy surfaced to callers —
`InvalidCredentials`, `MalformedRequest`, `Conflict`, and the catch-all
`Unknown`.  The source only declares a raw error enum; the classification and
propagation machinery is not implemented there. -/
inductive ErrorKind where
  | invalidCredentials
  | malformedRequest
  | conflict
  | unknown
deriving DecidableEq, Repr

/-- Modelled from the spec: a structured error carried by the Error state —
a classified kind plus the transport-provided human-readable message. -/
structure ErrorInfo where
  kind : ErrorKind
  message : String
deriving DecidableEq, Repr

/-- Modelled from the spec: the four mutually exclusive lifecycle tags of an
async-operation result (the spec resolves the source's duplicate result-shape
declarations in favour of this enumerated model). -/
inductive StateTag where
  | idle
  | loading
  | success
  | error
deriving DecidableEq, Repr

/-- Modelled from the spec: the observable result record
`\x7bstate, value, error\x7d` of one asynchronous operation.  The field
discipline — `value` present only in Success, `error` only in Error — is an
invariant proved below, not baked into the type. -/
structure ResultRecord (T : Type) where
  state : StateTag
  value : Option T
  error : Option ErrorInfo
deriving DecidableEq, Repr

/-- Modelled from the spec: an AsyncOperationTracker — the observable result
record together with the identity of the most recent invocation, used to
discard resolutions of superseded invocations ("last write wins"). -/
structure Tracker (T : Type) where
  result : ResultRecord T
  currentInvocation : Nat
deriving DecidableEq, Repr

/-- A tracker as created when the operation hook is instantiated: Idle, no
value, no error, no invocation yet. -/
def initTracker (T : Type) : Tracker T :=
  { result := ⟨.idle, none, none⟩, currentInvocation := 0 }

/-- Modelled from the spec: `invoke` starts the wrapped call — the result
transitions to Loading synchronously (previous value/error cleared) and a
fresh invocation handle is returned; the handle of the most recent `invoke`
is the only one whose resolution will be accepted. -/
def invoke {T : Type} (tr : Tracker T) : Tracker T × Nat :=
  let h := tr.currentInvocation + 1
  ({ result := ⟨.loading, none, none⟩, currentInvocation := h }, h)

/-- Modelled from the spec: successful resolution of invocation `h` — the
result transitions Loading → Success with `value` set, but only when `h` is
still the most recent invocation and the tracker is still Loading; a
superseded (or discarded-by-reset) invocation's resolution is ignored. -/
def resolveSuccess {T : Type} (h : Nat) (v : T) (tr : Tracker T) : Tracker T :=
  if h == tr.currentInvocation && tr.result.state == StateTag.loading then
    { tr with result := ⟨.success, some v, none⟩ }
  else tr

/-- Modelled from the spec: failed resolution of invocation `h` — the result
transitions Loading → Error carrying the classified error, under the same
most-recent-invocation guard as `resolveSuccess`. -/
def resolveFailure {T : Type} (h : Nat) (e : ErrorInfo) (tr : Tracker T) : Tracker T :=
  if h == tr.currentInvocation && tr.result.state == StateTag.loading then
    { tr with result := ⟨.error, none, some e⟩ }
  else tr

/-- Modelled from the spec: `reset` forces the result back to Idle, clearing
value and error. -/
def resetTracker {T : Type} (tr : Tracker T) : Tracker T :=
  { tr with result := ⟨.idle, none, none⟩ }

/-- One observable event in the life of a tracker: an invocation, a success
or failure resolution carrying its invocation handle, or a reset. -/
inductive TrackerOp (T : Type) where
  | invokeOp
  | succeedOp (h : Nat) (v : T)
  | failOp (h : Nat) (e : ErrorInfo)
  | resetOp
deriving DecidableEq, Repr

/-- Apply one tracker event. -/
def applyTrackerOp {T : Type} (op : TrackerOp T) (tr : Tracker T) : Tracker T :=
  match op with
  | .invokeOp => (invoke tr).1
  | .succeedOp h v => resolveSuccess h v tr
  | .failOp h e => resolveFailure h e tr
  | .resetOp => resetTracker tr

/-- Run a sequence of tracker events. -/
def runTracker {T : Type} (ops : List (TrackerOp T)) (tr : Tracker T) : Tracker T :=
  ops.foldl (fun t op => applyTrackerOp op t) tr

/-- The four state flags a consumer can read off a result record. -/
def stateFlags {T : Type} (r : ResultRecord T) : List Bool :=
  [r.state == StateTag.idle, r.state == StateTag.loading,
   r.state == StateTag.success, r.state == StateTag.error]

/-- Field discipline of a result record: the `value` field is populated
exactly in the Success state and the `error` field exactly in the Error
state. -/
def fieldDiscipline {T : Type} (r : ResultRecord T) : Bool :=
  (r.value.isSome == (r.state == StateTag.success))
    && (r.error.isSome == (r.state == StateTag.error))

/-- Raw failure tags the opaque transport can report (listed in the source's
comment as coming from `generic_network_transport.hpp`): an authentication
rejection, a validation rejection, a duplicate resource, or anything else
(an open-ended code). -/
inductive RawTag where
  | authenticationRejected
  | validationRejected
  | duplicateResource
  | other (code : String)
deriving DecidableEq, Repr

/-- A raw transport failure: a tag plus the transport-provided human-readable
message. -/
structure RawTransportError where
  tag : RawTag
  message : String
deriving DecidableEq, Repr

/-- Modelled from the spec: classification of raw transport failures into the
closed taxonomy — authentication rejections become `InvalidCredentials`,
validation rejections `MalformedRequest`, duplicate resources `Conflict`, and
everything not otherwise classified falls through to `Unknown`. -/
def classify : RawTag → ErrorKind
  | .authenticationRejected => .invalidCredentials
  | .validationRejected => .malformedRequest
  | .duplicateResource => .conflict
  | .other _ => .unknown

/-- The structured error surfaced for a raw transport failure: the classified
kind plus the transport-provided message, verbatim. -/
def classifyErr (raw : RawTransportError) : ErrorInfo :=
  { kind := classify raw.tag, message := raw.message }

/-- The four network-backed operations the core wraps in trackers. -/
inductive WrappedOperation where
  | loginCall
  | registerCall
  | resetPasswordCall
  | flushSubscriptionsCall
deriving DecidableEq, Repr

/-- One tracker per wrapped operation (the "corresponding result record" of
each operation). -/
def OperationTrackers (T : Type) : Type := WrappedOperation → Tracker T

/-- All four trackers start Idle. -/
def initOperationTrackers (T : Type) : OperationTrackers T :=
  fun _ => initTracker T

/-- Invoke one wrapped operation: its own tracker transitions to Loading and
a fresh invocation handle is returned; the other operations' trackers are
untouched. -/
def invokeOperation {T : Type} (op : WrappedOperation) (ts : OperationTrackers T) :
    OperationTrackers T × Nat :=
  let p := invoke (ts op)
  (fun op2 => if op2 == op then p.1 else ts op2, p.2)

/-- Modelled from the spec: a transport failure of one wrapped operation is
classified and delivered to that operation's own tracker — it is never
swallowed and never rerouted to another record. -/
def settleOperationFailure {T : Type} (op : WrappedOperation) (h : Nat)
    (raw : RawTransportError) (ts : OperationTrackers T) : OperationTrackers T :=
  fun op2 => if op2 == op then resolveFailure h (classifyErr raw) (ts op2) else ts op2

/-- A subscription descriptor: an opaque, comparable, serializable query
description. -/
abbrev Descriptor := String

/-- Modelled from the spec: one subscription mutation — an Add carrying a
descriptor, or a Remove referencing an existing id. -/
inductive SubOperation where
  | addOp (descriptor : Descriptor)
  | removeOp
deriving DecidableEq, Repr

/-- Modelled from the spec: a subscription request as recorded in a batch — a
process-unique id plus the operation. -/
structure SubscriptionRequest where
  id : Nat
  op : SubOperation
deriving DecidableEq, Repr

/-- Test for an Add request. -/
def isAddReq (r : SubscriptionRequest) : Bool :=
  match r.op with
  | .addOp _ => true
  | .removeOp => false

/-- The requests of a batch touching one id, in batch order. -/
def opsFor (b : List SubscriptionRequest) (i : Nat) : List SubscriptionRequest :=
  b.filter (fun r => r.id == i)

/-- Does the batch contain an Add for this id? -/
def hasAddFor (b : List SubscriptionRequest) (i : Nat) : Bool :=
  (opsFor b i).any isAddReq

/-- Does the batch contain a Remove for this id? -/
def hasRemoveFor (b : List SubscriptionRequest) (i : Nat) : Bool :=
  (opsFor b i).any (fun r => !isAddReq r)

/-- Modelled from the spec: the net operation a batch carries for one id —
only the last operation survives, and a Remove that cancels an Add issued in
the same batch elides the id entirely (no transport call for it). -/
def netOpFor (b : List SubscriptionRequest) (i : Nat) : Option SubscriptionRequest :=
  match (opsFor b i).getLast? with
  | none => none
  | some r => if isAddReq r then some r else if hasAddFor b i then none else some r

/-- The ids mentioned by a batch, in order of first occurrence, each once. -/
def insertionOrderIds : List SubscriptionRequest → List Nat
  | [] => []
  | r :: rest => r.id :: (insertionOrderIds rest).filter (fun j => !(j == r.id))

/-- Modelled from the spec: de-duplication at flush time — for each id of the
batch, in insertion order, the net operation that survives. -/
def dedupBatch (b : List SubscriptionRequest) : List SubscriptionRequest :=
  (insertionOrderIds b).filterMap (netOpFor b)

/-- Modelled from the spec: the effect of one committed request on the set of
acknowledged subscriptions — an Add (re)binds its id to its descriptor, a
Remove drops the id. -/
def applyRequest (active : List (Nat × Descriptor)) (r : SubscriptionRequest) :
    List (Nat × Descriptor) :=
  match r.op with
  | .addOp d => active.filter (fun p => !(p.1 == r.id)) ++ [(r.id, d)]
  | .removeOp => active.filter (fun p => !(p.1 == r.id))

/-- Modelled from the spec: the committed subscription set after flushing a
batch — the de-duplicated requests applied, in order, to the previously
acknowledged set. -/
def commitBatch (b : List SubscriptionRequest) (active : List (Nat × Descriptor)) :
    List (Nat × Descriptor) :=
  (dedupBatch b).foldl applyRequest active

/-- Last request touching an id in a request list. -/
def lastOpFor (b : List SubscriptionRequest) (i : Nat) : Option SubscriptionRequest :=
  (opsFor b i).getLast?

/-- Do two batches order the operations on every id identically?  (Checked on
every id either batch mentions; ids mentioned by neither have empty operation
lists in both.) -/
def sameOrderPerId (b1 b2 : List SubscriptionRequest) : Bool :=
  (insertionOrderIds b1 ++ insertionOrderIds b2).all
    (fun i => opsFor b1 i == opsFor b2 i)

/-- Equality of two committed sets as sets (mutual containment). -/
def sameSet (xs ys : List (Nat × Descriptor)) : Bool :=
  xs.all (fun p => ys.contains p) && ys.all (fun p => xs.contains p)

/-- Modelled from the spec: the state of one SubscriptionBatchCoordinator —
the id allocator, the pending batch accumulated since the last flush, the
pending-flush flag, the batch currently in flight (Committed), the
acknowledged (Active) subscriptions, and the flush tracker's result
record. -/
structure Coordinator where
  nextId : Nat
  pending : List SubscriptionRequest
  flushScheduled : Bool
  inFlight : Option (List SubscriptionRequest)
  active : List (Nat × Descriptor)
  flushResult : ResultRecord Unit
deriving DecidableEq, Repr

/-- A coordinator before any call: nothing pending, nothing in flight,
nothing active, flush tracker Idle. -/
def initCoordinator : Coordinator :=
  { nextId := 0, pending := [], flushScheduled := false, inFlight := none,
    active := [], flushResult := ⟨.idle, none, none⟩ }

/-- Is the id currently acknowledged? -/
def activeHas (c : Coordinator) (i : Nat) : Bool :=
  c.active.any (fun p => p.1 == i)

/-- Does the in-flight batch carry an Add for the id? -/
def inFlightAddHas (c : Coordinator) (i : Nat) : Bool :=
  (c.inFlight.getD []).any (fun r => r.id == i && isAddReq r)

/-- Modelled from the spec: `add(descriptor)` allocates a new unique id,
enqueues an Add request carrying it, raises the pending-flush flag, and
returns the id synchronously. -/
def coordAdd (d : Descriptor) (c : Coordinator) : Coordinator × Nat :=
  ({ c with nextId := c.nextId + 1,
            pending := c.pending ++ [⟨c.nextId, .addOp d⟩],
            flushScheduled := true }, c.nextId)

/-- Is the id removable — returned by a prior `add` and not yet removed,
i.e. still present as a pending Add, an acknowledged subscription, or an
in-flight Add, with no Remove already enqueued for it? -/
def removableId (c : Coordinator) (i : Nat) : Bool :=
  !hasRemoveFor c.pending i
    && (hasAddFor c.pending i || activeHas c i || inFlightAddHas c i)

/-- Modelled from the spec: `remove(id)` enqueues a Remove request for a
previously returned id; removing an id that was already removed or never
existed is a no-op rather than an error. -/
def coordRemove (i : Nat) (c : Coordinator) : Coordinator :=
  if removableId c i then
    { c with pending := c.pending ++ [⟨i, .removeOp⟩], flushScheduled := true }
  else c

/-- Modelled from the spec: the deferred flush fires — the pending batch is
de-duplicated and handed to the transport (at most one flush in flight at a
time, so nothing happens while another flight is outstanding), the pending
batch and flag are cleared, and the flush tracker transitions to Loading. -/
def fireFlush (c : Coordinator) : Coordinator :=
  if c.inFlight.isSome then c
  else
    { c with pending := [], flushScheduled := false,
             inFlight := some (dedupBatch c.pending),
             flushResult := ⟨.loading, none, none⟩ }

/-- Modelled from the spec: the transport acknowledges the in-flight batch —
its requests are applied to the acknowledged set and the flush tracker
transitions to Success. -/
def flushSucceed (c : Coordinator) : Coordinator :=
  match c.inFlight with
  | none => c
  | some batch =>
      { c with inFlight := none,
               active := batch.foldl applyRequest c.active,
               flushResult := ⟨.success, some (), none⟩ }

/-- Modelled from the spec: the transport rejects the in-flight batch — the
batch is dropped (its subscriptions revert to absent, the acknowledged set is
untouched) and the flush tracker transitions to Error with the classified
kind and the transport's message. -/
def flushFail (raw : RawTransportError) (c : Coordinator) : Coordinator :=
  match c.inFlight with
  | none => c
  | some _ =>
      { c with inFlight := none,
               flushResult := ⟨.error, none, some (classifyErr raw)⟩ }

/-- One observable coordinator event: a synchronous `add` or `remove` call,
the deferred flush firing, or the transport resolving the in-flight batch. -/
inductive CoordEvent where
  | addCall (d : Descriptor)
  | removeCall (i : Nat)
  | fireEvent
  | succeedEvent
  | failEvent (raw : RawTransportError)
deriving DecidableEq, Repr

/-- Apply one coordinator event. -/
def applyEvent (c : Coordinator) (e : CoordEvent) : Coordinator :=
  match e with
  | .addCall d => (coordAdd d c).1
  | .removeCall i => coordRemove i c
  | .fireEvent => fireFlush c
  | .succeedEvent => flushSucceed c
  | .failEvent raw => flushFail raw c

/-- Run a sequence of coordinator events. -/
def applyEvents (evs : List CoordEvent) (c : Coordinator) : Coordinator :=
  evs.foldl applyEvent c

/-- No id gains an Add after a Remove for it: after every Remove request in
the list, no later Add mentions the same id.  Batches built by the
coordinator satisfy this because every `add` allocates a fresh id. -/
def noAddAfterRemove : List SubscriptionRequest → Bool
  | [] => true
  | r :: rest =>
      (isAddReq r || !hasAddFor rest r.id) && noAddAfterRemove rest

/-- Every id a coordinator state mentions anywhere — pending batch, in-flight
batch, acknowledged set. -/
def idsOf (c : Coordinator) : List Nat :=
  c.pending.map (·.id) ++ (c.inFlight.getD []).map (·.id) ++ c.active.map (·.1)

/-- The coordinator's inductive invariant: every mentioned id is below the
allocator; a pending Add's id is neither acknowledged nor in flight as an
Add; an in-flight Add's id is not acknowledged; and the pending batch never
re-adds a removed id. -/
structure CoordInv (c : Coordinator) : Prop where
  bounded : ∀ i ∈ idsOf c, i < c.nextId
  pendingFresh : ∀ r ∈ c.pending, isAddReq r = true →
    activeHas c r.id = false ∧ inFlightAddHas c r.id = false
  inFlightFresh : ∀ r ∈ c.inFlight.getD [], isAddReq r = true → activeHas c r.id = false
  noReAdd : noAddAfterRemove c.pending = true

/-- C9: in `useAddSubscription`, the guard `!waitingForFlush` negates the ref
object itself (truthy, being an object), so the branch that would set
`waitingForFlush.current` and schedule the deferred flush via `setImmediate`
is never taken: from a fresh hook, any sequence of `addSubscription` calls
schedules zero flushes and leaves `waitingForFlush.current` at `false`; and
no `addSubscription` call ever changes `waitingForFlush.current` at all, so
once true it could never be reset to false. -/
theorem addSubscription_guard_never_taken :
    ∀ (qs : List Query),
      (applyAdds qs initHook).scheduledFlushes = 0
      ∧ (applyAdds qs initHook).waitingForFlush.current = false
      ∧ ∀ (s : UseAddSubscriptionState) (q : Query),
          ((addSubscription q s).1).waitingForFlush.current = s.waitingForFlush.current := by
  have hstep : ∀ (s : UseAddSubscriptionState) (q : Query),
      (addSubscription q s).1
        = { s with updates := ⟨s.updates.current ++ [q]⟩ } := by
    intro s q
    simp [addSubscription, RefCell.asJS, truthy]
  have hrun : ∀ (qs : List Query) (s : UseAddSubscriptionState),
      (applyAdds qs s).scheduledFlushes = s.scheduledFlushes
      ∧ (applyAdds qs s).waitingForFlush = s.waitingForFlush := by
    intro qs
    induction qs with
    | nil => intro s; exact ⟨rfl, rfl⟩
    | cons q rest ih =>
        intro s
        have h := ih ((addSubscription q s).1)
        simpa [applyAdds, hstep s q] using h
  intro qs
  refine ⟨(hrun qs initHook).1, ?_, ?_⟩
  · have h := (hrun qs initHook).2
    simpa [initHook] using congrArg RefCell.current h
  · intro s q
    simp [hstep s q]

/-- C1 (failing evaluation): a single `addSubscription` call on a fresh
`useAddSubscription` hook records the query in the batch but schedules zero
flushes — not the exactly one flush the design requires — because the
pending-flush guard tests the truthiness of the ref object itself. -/
theorem single_add_schedules_no_flush :
    ((addSubscription "Cat" initHook).1).scheduledFlushes = 0
    ∧ ((addSubscription "Cat" initHook).1).updates.current = ["Cat"] := by
  constructor <;> rfl

/-- C6 (failing evaluation): the `addSubscription` closure's body ends without
a `return` statement, so every call evaluates to `undefined`: two successive
calls return equal values rather than distinct fresh ids, and no id is ever
allocated or handed back to the caller. -/
theorem addSubscription_returns_undefined_not_ids :
    (addSubscription "Cat" initHook).2 = JSValue.vUndefined
    ∧ (addSubscription "Dog" ((addSubscription "Cat" initHook).1)).2
        = (addSubscription "Cat" initHook).2 := by
  constructor <;> rfl

/-- C10: the `useAddSubscription` function body consists only of `const`
declarations and contains no `return` statement, so every invocation of the
hook evaluates to `undefined`; in particular the `addSubscription` closure it
defines is never exposed to any caller. -/
theorem useAddSubscription_exposes_nothing :
    useAddSubscriptionReturn = JSValue.vUndefined
    ∧ useAddSubscriptionBody.any JSStmt.isReturnStmt = false := by
  constructor <;> rfl

/-- Applying one tracker event preserves the field discipline of the result
record. -/
theorem fieldDiscipline_applyTrackerOp {T : Type} (op : TrackerOp T) (tr : Tracker T)
    (hwf : fieldDiscipline tr.result = true) :
    fieldDiscipline (applyTrackerOp op tr).result = true := by
  cases op with
  | invokeOp => simp [applyTrackerOp, invoke, fieldDiscipline]
  | succeedOp hh v =>
      by_cases hc : (hh == tr.currentInvocation && tr.result.state == StateTag.loading) = true
      · simp [applyTrackerOp, resolveSuccess, hc, fieldDiscipline]
      · simpa [applyTrackerOp, resolveSuccess, hc] using hwf
  | failOp hh e =>
      by_cases hc : (hh == tr.currentInvocation && tr.result.state == StateTag.loading) = true
      · simp [applyTrackerOp, resolveFailure, hc, fieldDiscipline]
      · simpa [applyTrackerOp, resolveFailure, hc] using hwf
  | resetOp => simp [applyTrackerOp, resetTracker, fieldDiscipline]

/-- Running a sequence of tracker events preserves the field discipline. -/
theorem fieldDiscipline_runTracker {T : Type} (ops : List (TrackerOp T)) (tr : Tracker T)
    (h : fieldDiscipline tr.result = true) :
    fieldDiscipline (runTracker ops tr).result = true := by
  induction ops generalizing tr with
  | nil => exact h
  | cons op rest ih =>
      exact ih (applyTrackerOp op tr) (fieldDiscipline_applyTrackerOp op tr h)

/-- Every result record carries exactly one of the four state tags. -/
theorem stateFlags_count_one {T : Type} (r : ResultRecord T) :
    (stateFlags r).count true = 1 := by
  cases h : r.state <;> simp [stateFlags, h]

/-- The current-invocation counter never decreases under one tracker event. -/
theorem currentInvocation_le_applyTrackerOp {T : Type} (op : TrackerOp T) (tr : Tracker T) :
    tr.currentInvocation ≤ (applyTrackerOp op tr).currentInvocation := by
  cases op with
  | invokeOp => simp [applyTrackerOp, invoke]
  | succeedOp hh v =>
      by_cases hc : (hh == tr.currentInvocation && tr.result.state == StateTag.loading) = true
      · simp [applyTrackerOp, resolveSuccess, hc]
      · simp [applyTrackerOp, resolveSuccess, hc]
  | failOp hh e =>
      by_cases hc : (hh == tr.currentInvocation && tr.result.state == StateTag.loading) = true
      · simp [applyTrackerOp, resolveFailure, hc]
      · simp [applyTrackerOp, resolveFailure, hc]
  | resetOp => simp [applyTrackerOp, resetTracker]

/-- The current-invocation counter never decreases under a run of tracker
events. -/
theorem currentInvocation_le_runTracker {T : Type} (ops : List (TrackerOp T)) (tr : Tracker T) :
    tr.currentInvocation ≤ (runTracker ops tr).currentInvocation := by
  induction ops generalizing tr with
  | nil => exact Nat.le_refl _
  | cons op rest ih =>
      exact Nat.le_trans (currentInvocation_le_applyTrackerOp op tr)
        (ih (applyTrackerOp op tr))

/-- C2: for every AsyncOperationTracker and every sequence of operations run
from a fresh tracker, the observed result record is in exactly one of the
four states Idle, Loading, Success, Error (never two at once, never none),
its `value` field is populated exactly in Success, and its `error` field
exactly in Error. -/
theorem tracker_exactly_one_state {T : Type} (ops : List (TrackerOp T)) :
    ((stateFlags (runTracker ops (initTracker T)).result).count true = 1)
    ∧ fieldDiscipline (runTracker ops (initTracker T)).result = true := by
  refine ⟨stateFlags_count_one _, ?_⟩
  exact fieldDiscipline_runTracker ops (initTracker T) (by rfl)

/-- C3: when `invoke` is called while a previous invocation is still Loading,
only the second (most recent) invocation's result is ever written: the first
invocation's resolution — success or failure, arriving after any further
sequence of events — leaves the tracker unchanged, while the second
invocation's resolution is written (also when it arrives after the first's
discarded resolution). -/
theorem second_invoke_supersedes_first {T : Type} (tr0 : Tracker T)
    (ops : List (TrackerOp T)) (v1 v2 : T) (e1 : ErrorInfo) :
    (resolveSuccess (invoke tr0).2 v1 (runTracker ops (invoke (invoke tr0).1).1)
        = runTracker ops (invoke (invoke tr0).1).1)
    ∧ (resolveFailure (invoke tr0).2 e1 (runTracker ops (invoke (invoke tr0).1).1)
        = runTracker ops (invoke (invoke tr0).1).1)
    ∧ ((resolveSuccess (invoke (invoke tr0).1).2 v2 (invoke (invoke tr0).1).1).result
        = ⟨.success, some v2, none⟩)
    ∧ ((resolveSuccess (invoke (invoke tr0).1).2 v2
          (resolveFailure (invoke tr0).2 e1 (invoke (invoke tr0).1).1)).result
        = ⟨.success, some v2, none⟩) := by
  have hlt : (invoke tr0).2 < (invoke (invoke tr0).1).1.currentInvocation := by
    simp [invoke]
  have hle : (invoke (invoke tr0).1).1.currentInvocation
      ≤ (runTracker ops (invoke (invoke tr0).1).1).currentInvocation :=
    currentInvocation_le_runTracker ops _
  have hne : ((invoke tr0).2 == (runTracker ops (invoke (invoke tr0).1).1).currentInvocation)
      = false := by
    simp only [beq_eq_false_iff_ne, ne_eq]
    omega
  have hstale : ∀ (tr : Tracker T),
      ((invoke tr0).2 == tr.currentInvocation) = false →
      resolveSuccess (invoke tr0).2 v1 tr = tr ∧ resolveFailure (invoke tr0).2 e1 tr = tr := by
    intro tr hne2
    constructor
    · simp [resolveSuccess, hne2]
    · simp [resolveFailure, hne2]
  have hne2 : ((invoke tr0).2 == (invoke (invoke tr0).1).1.currentInvocation) = false := by
    simp only [beq_eq_false_iff_ne, ne_eq]
    omega
  refine ⟨(hstale _ hne).1, (hstale _ hne).2, ?_, ?_⟩
  · simp [invoke, resolveSuccess]
  · rw [(hstale _ hne2).2]
    simp [invoke, resolveSuccess]

/-- An element delivered by `getLast?` is a member of the list. -/
theorem mem_of_getLast_some {α : Type} {l : List α} {a : α} (h : l.getLast? = some a) :
    a ∈ l := by
  induction l with
  | nil => simp at h
  | cons x xs ih =>
      cases xs with
      | nil => simp_all
      | cons y ys =>
          rw [List.getLast?_cons_cons] at h
          exact List.mem_cons_of_mem x (ih h)

/-- The requests touching one id, on a cons cell. -/
theorem opsFor_cons (r : SubscriptionRequest) (rest : List SubscriptionRequest) (i : Nat) :
    opsFor (r :: rest) i = if r.id == i then r :: opsFor rest i else opsFor rest i := by
  simp [opsFor, List.filter_cons]

/-- The requests touching one id, on an append. -/
theorem opsFor_append (b1 b2 : List SubscriptionRequest) (i : Nat) :
    opsFor (b1 ++ b2) i = opsFor b1 i ++ opsFor b2 i := by
  simp [opsFor, List.filter_append]

/-- Membership in the result of one applied request: an id touched by the
request is present exactly when the request is an Add of that pair; any other
id is untouched. -/
theorem mem_applyRequest (active : List (Nat × Descriptor)) (r : SubscriptionRequest)
    (i : Nat) (d : Descriptor) :
    ((i, d) ∈ applyRequest active r) ↔
      (if r.id = i then r.op = .addOp d else (i, d) ∈ active) := by
  cases hop : r.op with
  | addOp d2 =>
      by_cases hid : r.id = i
      · simp [applyRequest, hop, List.mem_filter, List.mem_append, hid]
        exact eq_comm
      · simp [applyRequest, hop, List.mem_filter, List.mem_append, hid]
        have hne : ¬ i = r.id := fun h => hid h.symm
        tauto
  | removeOp =>
      by_cases hid : r.id = i
      · simp [applyRequest, hop, List.mem_filter, hid]
      · simp [applyRequest, hop, List.mem_filter, hid]
        exact fun _ h => hid h.symm

/-- Membership after folding a request list over an active set: decided by
the last request touching the id, and by the starting set when no request
touches it. -/
theorem mem_foldl_applyRequest (rs : List SubscriptionRequest)
    (active : List (Nat × Descriptor)) (i : Nat) (d : Descriptor) :
    ((i, d) ∈ rs.foldl applyRequest active) ↔
      (match lastOpFor rs i with
       | some r => r.op = .addOp d
       | none => (i, d) ∈ active) := by
  induction rs generalizing active with
  | nil => simp [lastOpFor, opsFor]
  | cons r rest ih =>
      rw [List.foldl_cons, ih]
      by_cases hid : r.id = i
      · have hops : opsFor (r :: rest) i = r :: opsFor rest i := by
          simp [opsFor_cons, hid]
        cases hrest : opsFor rest i with
        | nil =>
            have h1 : lastOpFor (r :: rest) i = some r := by
              simp [lastOpFor, hops, hrest]
            have h2 : lastOpFor rest i = none := by
              simp [lastOpFor, hrest]
            rw [h1, h2]
            simpa using (mem_applyRequest active r i d).trans (by simp [hid])
        | cons x xs =>
            have h1 : lastOpFor (r :: rest) i = lastOpFor rest i := by
              simp only [lastOpFor, hops, hrest, List.getLast?_cons_cons]
            rw [h1]
            cases hlast : lastOpFor rest i with
            | some r2 => exact Iff.rfl
            | none =>
                exfalso
                rw [lastOpFor, hrest] at hlast
                simp at hlast
      · have hops : opsFor (r :: rest) i = opsFor rest i := by
          simp [opsFor_cons, hid]
        have h1 : lastOpFor (r :: rest) i = lastOpFor rest i := by
          simp [lastOpFor, hops]
        rw [h1]
        cases hlast : lastOpFor rest i with
        | some r2 => exact Iff.rfl
        | none => exact (mem_applyRequest active r i d).trans (by simp [hid])

/-- An id is listed by `insertionOrderIds` exactly when some request of the
batch carries it. -/
theorem mem_insertionOrderIds (b : List SubscriptionRequest) (i : Nat) :
    i ∈ insertionOrderIds b ↔ ∃ r ∈ b, r.id = i := by
  induction b with
  | nil => simp [insertionOrderIds]
  | cons r rest ih =>
      simp only [insertionOrderIds, List.mem_cons, List.mem_filter, ih]
      constructor
      · rintro (rfl | ⟨⟨r2, hr2, hid⟩, _⟩)
        · exact ⟨r, Or.inl rfl, rfl⟩
        · exact ⟨r2, Or.inr hr2, hid⟩
      · rintro ⟨r2, hr2, hid⟩
        rcases hr2 with rfl | hmem
        · exact Or.inl (hid ▸ rfl)
        · by_cases heq : i = r.id
          · exact Or.inl heq
          · exact Or.inr ⟨⟨r2, hmem, hid⟩, by simpa using heq⟩

/-- The ids listed by `insertionOrderIds` are pairwise distinct. -/
theorem nodup_insertionOrderIds (b : List SubscriptionRequest) :
    (insertionOrderIds b).Nodup := by
  induction b with
  | nil => simp [insertionOrderIds]
  | cons r rest ih =>
      refine List.Nodup.cons ?_ (List.Nodup.filter _ ih)
      intro hmem
      have := (List.mem_filter.mp hmem).2
      simp at this

/-- A batch with no request for an id has no operations for it. -/
theorem opsFor_eq_nil_of_not_mem (b : List SubscriptionRequest) (i : Nat)
    (h : i ∉ insertionOrderIds b) : opsFor b i = [] := by
  rw [mem_insertionOrderIds] at h
  push_neg at h
  refine List.filter_eq_nil_iff.mpr ?_
  intro r hr
  simpa using h r hr

/-- A surviving net operation carries the id it was computed for and comes
from the batch. -/
theorem netOpFor_eq_some (b : List SubscriptionRequest) (i : Nat)
    (r : SubscriptionRequest) (h : netOpFor b i = some r) : r.id = i ∧ r ∈ b := by
  have hr : r ∈ opsFor b i := by
    unfold netOpFor at h
    cases hlast : (opsFor b i).getLast? with
    | none => rw [hlast] at h; simp at h
    | some r0 =>
        rw [hlast] at h
        have hr0 : r0 ∈ opsFor b i := mem_of_getLast_some hlast
        by_cases ha : isAddReq r0 = true
        · simp [ha] at h; exact h ▸ hr0
        · by_cases hb : hasAddFor b i = true
          · simp [ha, hb] at h
          · simp [ha, hb] at h; exact h ▸ hr0
  have := List.mem_filter.mp hr
  exact ⟨by simpa using this.2, this.1⟩

/-- Every request of the de-duplicated batch comes from the original
batch. -/
theorem mem_of_mem_dedupBatch (b : List SubscriptionRequest) (r : SubscriptionRequest)
    (h : r ∈ dedupBatch b) : r ∈ b := by
  rcases List.mem_filterMap.mp h with ⟨j, _, hj⟩
  exact (netOpFor_eq_some b j r hj).2

/-- Filtering an id-indexed `filterMap` by one id keeps the image of that id
alone. -/
theorem opsFor_filterMap (ids : List Nat) (f : Nat → Option SubscriptionRequest)
    (hf : ∀ j r, f j = some r → r.id = j) (i : Nat) :
    opsFor (ids.filterMap f) i = (ids.filter (fun j => j == i)).filterMap f := by
  induction ids with
  | nil => simp [opsFor]
  | cons j rest ih =>
      cases hfj : f j with
      | none =>
          by_cases hji : j = i
          · subst hji
            simp [List.filterMap_cons, List.filter_cons, hfj, ih]
          · simp [List.filterMap_cons, List.filter_cons, hfj, hji, ih]
      | some r =>
          have hrid : r.id = j := hf j r hfj
          by_cases hji : j = i
          · subst hji
            simp [List.filterMap_cons, List.filter_cons, hfj, opsFor_cons, hrid, ih]
          · simp [List.filterMap_cons, List.filter_cons, hfj, hji, opsFor_cons, hrid, ih]

/-- In a duplicate-free id list, filtering by one id leaves that id alone. -/
theorem filter_beq_of_nodup (ids : List Nat) (i : Nat) (h : ids.Nodup) :
    ids.filter (fun j => j == i) = if i ∈ ids then [i] else [] := by
  induction ids with
  | nil => simp
  | cons j rest ih =>
      have hj : j ∉ rest := (List.nodup_cons.mp h).1
      have hrest := ih (List.nodup_cons.mp h).2
      by_cases hji : j = i
      · subst hji
        simp [List.filter_cons, hrest, hj]
      · have hij : ¬ i = j := fun h2 => hji h2.symm
        simp [List.filter_cons, hji, hrest, hij]

/-- The last (indeed only) request for an id in the de-duplicated batch is
exactly the net operation of the original batch. -/
theorem lastOpFor_dedupBatch (b : List SubscriptionRequest) (i : Nat) :
    lastOpFor (dedupBatch b) i = netOpFor b i := by
  have hops : opsFor (dedupBatch b) i
      = ((insertionOrderIds b).filter (fun j => j == i)).filterMap (netOpFor b) :=
    opsFor_filterMap _ _ (fun j r hj => (netOpFor_eq_some b j r hj).1) i
  rw [lastOpFor, hops, filter_beq_of_nodup _ _ (nodup_insertionOrderIds b)]
  by_cases hmem : i ∈ insertionOrderIds b
  · simp only [hmem, if_pos]
    cases hnet : netOpFor b i with
    | none => simp [List.filterMap_cons, hnet]
    | some r => simp [List.filterMap_cons, hnet]
  · simp only [hmem, if_neg, if_false]
    have : opsFor b i = [] := opsFor_eq_nil_of_not_mem b i hmem
    simp [netOpFor, this]

/-- Membership in the committed set after a flush: decided by the net
operation of the batch for the id, and by the previously acknowledged set
when the batch nets out to nothing for it. -/
theorem mem_commitBatch (b : List SubscriptionRequest)
    (active : List (Nat × Descriptor)) (i : Nat) (d : Descriptor) :
    ((i, d) ∈ commitBatch b active) ↔
      (match netOpFor b i with
       | some r => r.op = .addOp d
       | none => (i, d) ∈ active) := by
  rw [commitBatch, mem_foldl_applyRequest, lastOpFor_dedupBatch]

/-- Two batches with identical per-id operation lists have the same net
operation for every id. -/
theorem netOpFor_congr (b1 b2 : List SubscriptionRequest) (i : Nat)
    (h : opsFor b1 i = opsFor b2 i) : netOpFor b1 i = netOpFor b2 i := by
  unfold netOpFor hasAddFor
  rw [h]

/-- C7: reordering the requests of a batch while preserving the relative
order of the operations on each id does not change the final committed
subscription set: for every permutation of the batch with the same per-id
operation lists, flushing over the same previously acknowledged set commits
the same set. -/
theorem reorder_preserves_committed_set (b1 b2 : List SubscriptionRequest)
    (active : List (Nat × Descriptor)) (_hperm : b1.Perm b2)
    (hord : sameOrderPerId b1 b2 = true) :
    sameSet (commitBatch b1 active) (commitBatch b2 active) = true := by
  have hops : ∀ i, opsFor b1 i = opsFor b2 i := by
    intro i
    by_cases h1 : i ∈ insertionOrderIds b1
    · have := List.all_eq_true.mp hord i (by simp [h1])
      simpa using this
    · by_cases h2 : i ∈ insertionOrderIds b2
      · have := List.all_eq_true.mp hord i (by simp [h2])
        simpa using this
      · rw [opsFor_eq_nil_of_not_mem b1 i h1, opsFor_eq_nil_of_not_mem b2 i h2]
  have hmem : ∀ p : Nat × Descriptor,
      p ∈ commitBatch b1 active ↔ p ∈ commitBatch b2 active := by
    rintro ⟨i, d⟩
    rw [mem_commitBatch, mem_commitBatch, netOpFor_congr b1 b2 i (hops i)]
  rw [sameSet, Bool.and_eq_true, List.all_eq_true, List.all_eq_true]
  constructor
  · intro p hp
    exact List.elem_eq_true_of_mem ((hmem p).mp hp)
  · intro p hp
    exact List.elem_eq_true_of_mem ((hmem p).mpr hp)

/-- Witness for C7 at a concrete input: the two Adds of the spec's scenario
— `Cat` under id 0 and `Dog` under id 1 — commit the same set in either
order. -/
theorem reorder_preserves_committed_set_witness :
    ([⟨0, .addOp "Cat"⟩, ⟨1, .addOp "Dog"⟩] : List SubscriptionRequest).Perm
        [⟨1, .addOp "Dog"⟩, ⟨0, .addOp "Cat"⟩]
    ∧ sameOrderPerId [⟨0, .addOp "Cat"⟩, ⟨1, .addOp "Dog"⟩]
        [⟨1, .addOp "Dog"⟩, ⟨0, .addOp "Cat"⟩] = true
    ∧ sameSet (commitBatch [⟨0, .addOp "Cat"⟩, ⟨1, .addOp "Dog"⟩] [])
        (commitBatch [⟨1, .addOp "Dog"⟩, ⟨0, .addOp "Cat"⟩] []) = true :=
  ⟨by decide, by decide,
    reorder_preserves_committed_set _ _ _ (by decide) (by decide)⟩

/-- An Add request is an Add exactly when its operation is an `addOp`. -/
theorem isAddReq_eq_true_iff (r : SubscriptionRequest) :
    isAddReq r = true ↔ ∃ d, r.op = .addOp d := by
  cases hop : r.op <;> simp [isAddReq, hop]

/-- Splitting `hasAddFor` over an append. -/
theorem hasAddFor_append (b1 b2 : List SubscriptionRequest) (i : Nat) :
    hasAddFor (b1 ++ b2) i = (hasAddFor b1 i || hasAddFor b2 i) := by
  simp [hasAddFor, opsFor_append, List.any_append]

/-- Splitting `hasRemoveFor` over an append. -/
theorem hasRemoveFor_append (b1 b2 : List SubscriptionRequest) (i : Nat) :
    hasRemoveFor (b1 ++ b2) i = (hasRemoveFor b1 i || hasRemoveFor b2 i) := by
  simp [hasRemoveFor, opsFor_append, List.any_append]

/-- A lone Remove request is never an Add for any id. -/
theorem hasAddFor_single_remove (i j : Nat) :
    hasAddFor [⟨i, .removeOp⟩] j = false := by
  by_cases h : (i == j) = true <;>
    simp [hasAddFor, opsFor, List.filter_cons, h, isAddReq]

/-- A lone Add request is an Add exactly for its own id. -/
theorem hasAddFor_single_add (i j : Nat) (d : Descriptor) :
    hasAddFor [⟨i, .addOp d⟩] j = (i == j) := by
  by_cases h : (i == j) = true <;>
    simp [hasAddFor, opsFor, List.filter_cons, h, isAddReq]

/-- Unfolding `hasAddFor` to an existential. -/
theorem hasAddFor_iff (b : List SubscriptionRequest) (j : Nat) :
    hasAddFor b j = true ↔ ∃ r ∈ b, r.id = j ∧ isAddReq r = true := by
  simp [hasAddFor, opsFor, List.any_eq_true, List.mem_filter, and_assoc]

/-- Unfolding `hasRemoveFor` to an existential. -/
theorem hasRemoveFor_iff (b : List SubscriptionRequest) (j : Nat) :
    hasRemoveFor b j = true ↔ ∃ r ∈ b, r.id = j ∧ isAddReq r = false := by
  simp [hasRemoveFor, opsFor, List.any_eq_true, List.mem_filter, and_assoc]

/-- Unfolding `hasRemoveFor` on a cons cell. -/
theorem hasRemoveFor_cons (r : SubscriptionRequest) (rest : List SubscriptionRequest) (i : Nat) :
    hasRemoveFor (r :: rest) i = (((r.id == i) && !isAddReq r) || hasRemoveFor rest i) := by
  by_cases h : (r.id == i) = true <;> simp [hasRemoveFor, opsFor_cons, h]

/-- Appending an Add with a fresh id preserves `noAddAfterRemove`. -/
theorem noAddAfterRemove_append_add (b : List SubscriptionRequest) (n : Nat) (d : Descriptor)
    (hn : noAddAfterRemove b = true) (hfresh : ∀ r ∈ b, r.id ≠ n) :
    noAddAfterRemove (b ++ [⟨n, .addOp d⟩]) = true := by
  induction b with
  | nil => simp [noAddAfterRemove, isAddReq]
  | cons r rest ih =>
      rw [noAddAfterRemove, Bool.and_eq_true] at hn
      rw [List.cons_append, noAddAfterRemove, Bool.and_eq_true]
      refine ⟨?_, ih hn.2 (fun r2 h2 => hfresh r2 (List.mem_cons_of_mem r h2))⟩
      have hne : (n == r.id) = false := by
        simp only [beq_eq_false_iff_ne, ne_eq]
        exact fun h => hfresh r (List.mem_cons_self r rest) h.symm
      rw [hasAddFor_append, hasAddFor_single_add, hne]
      simpa using hn.1

/-- Appending a Remove preserves `noAddAfterRemove`. -/
theorem noAddAfterRemove_append_remove (b : List SubscriptionRequest) (i : Nat)
    (hn : noAddAfterRemove b = true) :
    noAddAfterRemove (b ++ [⟨i, .removeOp⟩]) = true := by
  induction b with
  | nil => simp [noAddAfterRemove, isAddReq, hasAddFor, opsFor]
  | cons r rest ih =>
      rw [noAddAfterRemove, Bool.and_eq_true] at hn
      rw [List.cons_append, noAddAfterRemove, Bool.and_eq_true]
      refine ⟨?_, ih hn.2⟩
      rw [hasAddFor_append, hasAddFor_single_remove]
      simpa using hn.1

/-- Prefixing a nonempty list does not change its last element. -/
theorem getLast_cons_of_ne_nil {α : Type} (x : α) (l : List α) (h : l ≠ []) :
    (x :: l).getLast? = l.getLast? := by
  cases l with
  | nil => exact absurd rfl h
  | cons y ys => exact List.getLast?_cons_cons

/-- When a batch never re-adds a removed id, the last operation for any id
that has a Remove is a Remove. -/
theorem noAddAfterRemove_last_remove (b : List SubscriptionRequest) (i : Nat)
    (hn : noAddAfterRemove b = true) (hr : hasRemoveFor b i = true) :
    ∃ r, lastOpFor b i = some r ∧ isAddReq r = false := by
  induction b with
  | nil => simp [hasRemoveFor, opsFor] at hr
  | cons r rest ih =>
      rw [noAddAfterRemove, Bool.and_eq_true] at hn
      by_cases hrr : hasRemoveFor rest i = true
      · obtain ⟨r2, hlast2, hadd2⟩ := ih hn.2 hrr
        refine ⟨r2, ?_, hadd2⟩
        have hne : opsFor rest i ≠ [] := by
          intro hc
          rw [lastOpFor, hc] at hlast2
          simp at hlast2
        rw [lastOpFor, opsFor_cons]
        by_cases hri : (r.id == i) = true
        · rw [if_pos hri, getLast_cons_of_ne_nil r _ hne]
          exact hlast2
        · rw [if_neg hri]
          exact hlast2
      · rw [hasRemoveFor_cons] at hr
        have hself : ((r.id == i) && !isAddReq r) = true := by
          rw [Bool.or_eq_true] at hr
          rcases hr with h | h
          · exact h
          · exact absurd h hrr
        rw [Bool.and_eq_true] at hself
        have hradd : isAddReq r = false := by simpa using hself.2
        have hri : r.id = i := by simpa using hself.1
        have hna : hasAddFor rest r.id = false := by
          have hn1 := hn.1
          rw [Bool.or_eq_true] at hn1
          rcases hn1 with h | h
          · rw [hradd] at h; exact absurd h (by simp)
          · simpa using h
        have hops : opsFor rest i = [] := by
          cases hcase : opsFor rest i with
          | nil => rfl
          | cons x xs =>
              exfalso
              have hx : x ∈ opsFor rest i := by rw [hcase]; exact List.mem_cons_self x xs
              have hx2 := List.mem_filter.mp hx
              cases hxa : isAddReq x with
              | true =>
                  have : hasAddFor rest i = true := by
                    rw [hasAddFor, List.any_eq_true]
                    exact ⟨x, hx, hxa⟩
                  rw [hri] at hna
                  exact absurd this (by rw [hna]; simp)
              | false =>
                  have : hasRemoveFor rest i = true := by
                    rw [hasRemoveFor, List.any_eq_true]
                    exact ⟨x, hx, by rw [hxa]; rfl⟩
                  exact hrr this
        refine ⟨r, ?_, hradd⟩
        rw [lastOpFor, opsFor_cons, if_pos (by simpa using hri), hops]
        rfl

/-- Under `noAddAfterRemove`, an id with both an Add and a Remove in the
batch nets out to nothing. -/
theorem netOpFor_eq_none_of_add_remove (b : List SubscriptionRequest) (i : Nat)
    (hn : noAddAfterRemove b = true) (ha : hasAddFor b i = true)
    (hr : hasRemoveFor b i = true) : netOpFor b i = none := by
  obtain ⟨r, hlast, hremove⟩ := noAddAfterRemove_last_remove b i hn hr
  rw [lastOpFor] at hlast
  rw [netOpFor, hlast]
  simp [hremove, ha]

/-- The last operation for an id comes from the batch and carries the id. -/
theorem lastOpFor_eq_some_mem (b : List SubscriptionRequest) (i : Nat)
    (r : SubscriptionRequest) (h : lastOpFor b i = some r) : r ∈ b ∧ r.id = i := by
  have hr : r ∈ opsFor b i := mem_of_getLast_some h
  have := List.mem_filter.mp hr
  exact ⟨this.1, by simpa using this.2⟩

/-- Membership in a coordinator's mentioned ids, unfolded. -/
theorem mem_idsOf (c : Coordinator) (i : Nat) :
    i ∈ idsOf c ↔
      ((∃ r ∈ c.pending, r.id = i) ∨ (∃ r ∈ c.inFlight.getD [], r.id = i)
        ∨ (∃ p ∈ c.active, p.1 = i)) := by
  simp [idsOf, List.mem_append, List.mem_map, or_assoc]

/-- An id at or above the allocator is not acknowledged. -/
theorem activeHas_false_of_fresh (c : Coordinator) (hinv : CoordInv c) (j : Nat)
    (hj : c.nextId ≤ j) : activeHas c j = false := by
  cases hb : activeHas c j with
  | false => rfl
  | true =>
      exfalso
      rw [activeHas, List.any_eq_true] at hb
      obtain ⟨p, hp, hpj⟩ := hb
      have : j ∈ idsOf c := (mem_idsOf c j).mpr (Or.inr (Or.inr ⟨p, hp, by simpa using hpj⟩))
      exact absurd (hinv.bounded j this) (by omega)

/-- An id at or above the allocator is not in flight as an Add. -/
theorem inFlightAddHas_false_of_fresh (c : Coordinator) (hinv : CoordInv c) (j : Nat)
    (hj : c.nextId ≤ j) : inFlightAddHas c j = false := by
  cases hb : inFlightAddHas c j with
  | false => rfl
  | true =>
      exfalso
      rw [inFlightAddHas, List.any_eq_true] at hb
      obtain ⟨r, hr, hrj⟩ := hb
      rw [Bool.and_eq_true] at hrj
      have : j ∈ idsOf c :=
        (mem_idsOf c j).mpr (Or.inr (Or.inl ⟨r, hr, by simpa using hrj.1⟩))
      exact absurd (hinv.bounded j this) (by omega)

/-- The coordinator invariant holds initially and is preserved by every
event. -/
theorem coordInv_applyEvent (c : Coordinator) (e : CoordEvent) (hinv : CoordInv c) :
    CoordInv (applyEvent c e) := by
  cases e with
  | addCall d =>
      refine ⟨?_, ?_, ?_, ?_⟩
      · intro i hi
        rw [mem_idsOf] at hi
        rcases hi with ⟨r, hr, hrid⟩ | ⟨r, hr, hrid⟩ | ⟨p, hp, hpid⟩
        · rcases List.mem_append.mp hr with hold | hnew
          · have : i ∈ idsOf c := (mem_idsOf c i).mpr (Or.inl ⟨r, hold, hrid⟩)
            have := hinv.bounded i this
            show i < c.nextId + 1
            omega
          · have hre : r = ⟨c.nextId, .addOp d⟩ := by simpa using hnew
            subst hre
            have hi2 : c.nextId = i := hrid
            show i < c.nextId + 1
            omega
        · have : i ∈ idsOf c := (mem_idsOf c i).mpr (Or.inr (Or.inl ⟨r, hr, hrid⟩))
          have := hinv.bounded i this
          show i < c.nextId + 1
          omega
        · have : i ∈ idsOf c := (mem_idsOf c i).mpr (Or.inr (Or.inr ⟨p, hp, hpid⟩))
          have := hinv.bounded i this
          show i < c.nextId + 1
          omega
      · intro r hr hra
        rcases List.mem_append.mp hr with hold | hnew
        · exact hinv.pendingFresh r hold hra
        · have : r = ⟨c.nextId, .addOp d⟩ := by simpa using hnew
          subst this
          exact ⟨activeHas_false_of_fresh c hinv c.nextId (Nat.le_refl _),
            inFlightAddHas_false_of_fresh c hinv c.nextId (Nat.le_refl _)⟩
      · intro r hr hra
        exact hinv.inFlightFresh r hr hra
      · refine noAddAfterRemove_append_add c.pending c.nextId d hinv.noReAdd ?_
        intro r hr
        have : r.id ∈ idsOf c := (mem_idsOf c r.id).mpr (Or.inl ⟨r, hr, rfl⟩)
        have := hinv.bounded r.id this
        omega
  | removeCall i =>
      show CoordInv (coordRemove i c)
      rw [coordRemove]
      by_cases hrm : removableId c i = true
      · rw [if_pos hrm]
        refine ⟨?_, ?_, ?_, ?_⟩
        · intro j hj
          rw [mem_idsOf] at hj
          rcases hj with ⟨r, hr, hrid⟩ | ⟨r, hr, hrid⟩ | ⟨p, hp, hpid⟩
          · rcases List.mem_append.mp hr with hold | hnew
            · exact hinv.bounded j ((mem_idsOf c j).mpr (Or.inl ⟨r, hold, hrid⟩))
            · have hre : r = ⟨i, .removeOp⟩ := by simpa using hnew
              subst hre
              have hji : j = i := hrid.symm
              subst hji
              rw [removableId, Bool.and_eq_true] at hrm
              have h2 := hrm.2
              rw [Bool.or_eq_true, Bool.or_eq_true] at h2
              rcases h2 with (ha | ha) | ha
              · obtain ⟨r2, hr2, hr2id, _⟩ := (hasAddFor_iff c.pending j).mp ha
                exact hinv.bounded j ((mem_idsOf c j).mpr (Or.inl ⟨r2, hr2, hr2id⟩))
              · rw [activeHas, List.any_eq_true] at ha
                obtain ⟨p, hp, hpj⟩ := ha
                exact hinv.bounded j
                  ((mem_idsOf c j).mpr (Or.inr (Or.inr ⟨p, hp, by simpa using hpj⟩)))
              · rw [inFlightAddHas, List.any_eq_true] at ha
                obtain ⟨r2, hr2, hr2j⟩ := ha
                rw [Bool.and_eq_true] at hr2j
                exact hinv.bounded j
                  ((mem_idsOf c j).mpr (Or.inr (Or.inl ⟨r2, hr2, by simpa using hr2j.1⟩)))
          · exact hinv.bounded j ((mem_idsOf c j).mpr (Or.inr (Or.inl ⟨r, hr, hrid⟩)))
          · exact hinv.bounded j ((mem_idsOf c j).mpr (Or.inr (Or.inr ⟨p, hp, hpid⟩)))
        · intro r hr hra
          rcases List.mem_append.mp hr with hold | hnew
          · exact hinv.pendingFresh r hold hra
          · have hre : r = ⟨i, .removeOp⟩ := by simpa using hnew
            subst hre
            simp [isAddReq] at hra
        · intro r hr hra
          exact hinv.inFlightFresh r hr hra
        · exact noAddAfterRemove_append_remove c.pending i hinv.noReAdd
      · rw [if_neg hrm]
        exact hinv
  | fireEvent =>
      show CoordInv (fireFlush c)
      rw [fireFlush]
      by_cases hif : c.inFlight.isSome = true
      · rw [if_pos hif]
        exact hinv
      · rw [if_neg hif]
        refine ⟨?_, ?_, ?_, ?_⟩
        · intro j hj
          rw [mem_idsOf] at hj
          rcases hj with ⟨r, hr, hrid⟩ | ⟨r, hr, hrid⟩ | ⟨p, hp, hpid⟩
          · simp at hr
          · have hr2 : r ∈ dedupBatch c.pending := by simpa using hr
            have hmem := mem_of_mem_dedupBatch _ _ hr2
            exact hinv.bounded j ((mem_idsOf c j).mpr (Or.inl ⟨r, hmem, hrid⟩))
          · exact hinv.bounded j ((mem_idsOf c j).mpr (Or.inr (Or.inr ⟨p, hp, hpid⟩)))
        · intro r hr
          simp at hr
        · intro r hr hra
          have hr2 : r ∈ dedupBatch c.pending := by simpa using hr
          have hmem := mem_of_mem_dedupBatch _ _ hr2
          exact (hinv.pendingFresh r hmem hra).1
        · simp [noAddAfterRemove]
  | succeedEvent =>
      show CoordInv (flushSucceed c)
      rw [flushSucceed]
      cases hif : c.inFlight with
      | none => exact hinv
      | some batch =>
          refine ⟨?_, ?_, ?_, ?_⟩
          · intro j hj
            rw [mem_idsOf] at hj
            rcases hj with ⟨r, hr, hrid⟩ | ⟨r, hr, hrid⟩ | ⟨p, hp, hpid⟩
            · exact hinv.bounded j ((mem_idsOf c j).mpr (Or.inl ⟨r, hr, hrid⟩))
            · simp at hr
            · obtain ⟨jj, dd⟩ := p
              have hjj : jj = j := hpid
              have hp2 : (j, dd) ∈ List.foldl applyRequest c.active batch := by
                rw [← hjj]
                simpa using hp
              rw [mem_foldl_applyRequest] at hp2
              cases hlast : lastOpFor batch j with
              | some r2 =>
                  have hmem := lastOpFor_eq_some_mem batch j r2 hlast
                  refine hinv.bounded j ((mem_idsOf c j).mpr (Or.inr (Or.inl ⟨r2, ?_, hmem.2⟩)))
                  rw [hif]
                  exact hmem.1
              | none =>
                  simp only [hlast] at hp2
                  exact hinv.bounded j ((mem_idsOf c j).mpr (Or.inr (Or.inr ⟨(j, dd), hp2, rfl⟩)))
          · intro r hr hra
            have hr0 : r ∈ c.pending := hr
            have hfresh := hinv.pendingFresh r hr0 hra
            constructor
            · show (List.foldl applyRequest c.active batch).any (fun p => p.1 == r.id) = false
              cases hb : (List.foldl applyRequest c.active batch).any (fun p => p.1 == r.id) with
              | false => rfl
              | true =>
                  exfalso
                  rw [List.any_eq_true] at hb
                  obtain ⟨p, hp, hpj⟩ := hb
                  obtain ⟨jj, dd⟩ := p
                  have hjj : jj = r.id := by simpa using hpj
                  subst hjj
                  rw [mem_foldl_applyRequest] at hp
                  cases hlast : lastOpFor batch r.id with
                  | some r2 =>
                      simp only [hlast] at hp
                      have hmem := lastOpFor_eq_some_mem batch r.id r2 hlast
                      have hia : inFlightAddHas c r.id = true := by
                        rw [inFlightAddHas, List.any_eq_true]
                        refine ⟨r2, by rw [hif]; exact hmem.1, ?_⟩
                        rw [Bool.and_eq_true]
                        refine ⟨by simpa using hmem.2, ?_⟩
                        exact (isAddReq_eq_true_iff r2).mpr ⟨dd, hp⟩
                      rw [hfresh.2] at hia
                      exact Bool.false_ne_true hia
                  | none =>
                      simp only [hlast] at hp
                      have hac : activeHas c r.id = true := by
                        rw [activeHas, List.any_eq_true]
                        exact ⟨(r.id, dd), hp, by simp⟩
                      rw [hfresh.1] at hac
                      exact Bool.false_ne_true hac
            · rfl
          · intro r hr
            simp at hr
          · exact hinv.noReAdd
  | failEvent raw =>
      show CoordInv (flushFail raw c)
      rw [flushFail]
      cases hif : c.inFlight with
      | none => exact hinv
      | some batch =>
          refine ⟨?_, ?_, ?_, ?_⟩
          · intro j hj
            rw [mem_idsOf] at hj
            rcases hj with ⟨r, hr, hrid⟩ | ⟨r, hr, hrid⟩ | ⟨p, hp, hpid⟩
            · exact hinv.bounded j ((mem_idsOf c j).mpr (Or.inl ⟨r, hr, hrid⟩))
            · simp at hr
            · exact hinv.bounded j ((mem_idsOf c j).mpr (Or.inr (Or.inr ⟨p, hp, hpid⟩)))
          · intro r hr hra
            exact ⟨(hinv.pendingFresh r hr hra).1, rfl⟩
          · intro r hr
            simp at hr
          · exact hinv.noReAdd

/-- The coordinator invariant holds in the initial state. -/
theorem coordInv_init : CoordInv initCoordinator := by
  refine ⟨?_, ?_, ?_, ?_⟩
  · intro i hi
    simp [idsOf, initCoordinator] at hi
  · intro r hr
    simp [initCoordinator] at hr
  · intro r hr
    simp [initCoordinator] at hr
  · simp [initCoordinator, noAddAfterRemove]

/-- The coordinator invariant holds after any sequence of events from the
initial state. -/
theorem coordInv_applyEvents (evs : List CoordEvent) :
    CoordInv (applyEvents evs initCoordinator) := by
  suffices h : ∀ c, CoordInv c → CoordInv (applyEvents evs c) from
    h initCoordinator coordInv_init
  induction evs with
  | nil => exact fun c h => h
  | cons e rest ih =>
      intro c h
      exact ih (applyEvent c e) (coordInv_applyEvent c e h)

/-- C4: for every coordinator call sequence and every id, if the pending
batch contains both an Add and a (necessarily later) Remove for that id
before the flush fires, then the de-duplicated batch the flush hands to the
transport contains no operation at all for that id. -/
theorem add_then_remove_in_batch_elided (evs : List CoordEvent) (i : Nat)
    (hadd : hasAddFor (applyEvents evs initCoordinator).pending i = true)
    (hrem : hasRemoveFor (applyEvents evs initCoordinator).pending i = true) :
    (dedupBatch (applyEvents evs initCoordinator).pending).all
      (fun r => !(r.id == i)) = true := by
  have hinv := coordInv_applyEvents evs
  have hnet : netOpFor (applyEvents evs initCoordinator).pending i = none :=
    netOpFor_eq_none_of_add_remove _ i hinv.noReAdd hadd hrem
  rw [List.all_eq_true]
  intro r hr
  rcases List.mem_filterMap.mp hr with ⟨j, hjmem, hj⟩
  have hrid := (netOpFor_eq_some _ j r hj).1
  simp only [Bool.not_eq_true', beq_eq_false_iff_ne, ne_eq]
  intro hri
  have hji : j = i := hrid.symm.trans hri
  rw [hji, hnet] at hj
  exact Option.noConfusion hj

/-- Witness for C4 at a concrete input: `add("Cat")` returning id 0, then
`remove(0)`, both before the flush fires — the de-duplicated batch carries
nothing for id 0. -/
theorem add_then_remove_in_batch_elided_witness :
    hasAddFor (applyEvents [.addCall "Cat", .removeCall 0] initCoordinator).pending 0 = true
    ∧ hasRemoveFor (applyEvents [.addCall "Cat", .removeCall 0] initCoordinator).pending 0
        = true
    ∧ (dedupBatch (applyEvents [.addCall "Cat", .removeCall 0] initCoordinator).pending).all
        (fun r => !(r.id == 0)) = true :=
  ⟨by decide, by decide,
    add_then_remove_in_batch_elided [.addCall "Cat", .removeCall 0] 0 (by decide) (by decide)⟩

/-- C5: when the transport rejects the in-flight batch, only that batch is
reverted — the acknowledged set is unchanged, the batch is dropped, every Add
the failed batch carried is afterwards absent (neither acknowledged nor
pending), and the flush tracker ends in Error carrying the classified kind
and the transport-provided message. -/
theorem flush_failure_reverts_only_failed_batch (evs : List CoordEvent)
    (raw : RawTransportError) (batch : List SubscriptionRequest)
    (hf : (applyEvents evs initCoordinator).inFlight = some batch) :
    ((flushFail raw (applyEvents evs initCoordinator)).active
        = (applyEvents evs initCoordinator).active)
    ∧ (flushFail raw (applyEvents evs initCoordinator)).inFlight = none
    ∧ batch.all (fun r => !isAddReq r
        || (!activeHas (flushFail raw (applyEvents evs initCoordinator)) r.id
            && !hasAddFor (flushFail raw (applyEvents evs initCoordinator)).pending r.id))
        = true
    ∧ (flushFail raw (applyEvents evs initCoordinator)).flushResult
        = ⟨.error, none, some ⟨classify raw.tag, raw.message⟩⟩ := by
  have hinv := coordInv_applyEvents evs
  have h2 : flushFail raw (applyEvents evs initCoordinator)
      = { (applyEvents evs initCoordinator) with
          inFlight := none,
          flushResult := ⟨.error, none, some (classifyErr raw)⟩ } := by
    simp only [flushFail, hf]
  refine ⟨by rw [h2], by rw [h2], ?_, by rw [h2]; rfl⟩
  rw [List.all_eq_true]
  intro r hr
  by_cases hra : isAddReq r = true
  · have hrb : r ∈ (applyEvents evs initCoordinator).inFlight.getD [] := by
      rw [hf]
      exact hr
    have hact : activeHas (applyEvents evs initCoordinator) r.id = false :=
      hinv.inFlightFresh r hrb hra
    have hpend : hasAddFor (applyEvents evs initCoordinator).pending r.id = false := by
      cases hcase : hasAddFor (applyEvents evs initCoordinator).pending r.id with
      | false => rfl
      | true =>
          exfalso
          obtain ⟨r2, hr2, hr2id, hr2add⟩ :=
            (hasAddFor_iff (applyEvents evs initCoordinator).pending r.id).mp hcase
          have hfl := (hinv.pendingFresh r2 hr2 hr2add).2
          have hifl : inFlightAddHas (applyEvents evs initCoordinator) r2.id = true := by
            rw [inFlightAddHas, List.any_eq_true]
            refine ⟨r, hrb, ?_⟩
            rw [Bool.and_eq_true]
            exact ⟨by simpa using hr2id.symm, hra⟩
          rw [hfl] at hifl
          exact Bool.false_ne_true hifl
    have hact2 : activeHas (flushFail raw (applyEvents evs initCoordinator)) r.id = false := by
      rw [h2]
      exact hact
    have hpend2 : hasAddFor (flushFail raw (applyEvents evs initCoordinator)).pending r.id
        = false := by
      rw [h2]
      exact hpend
    simp [hra, hact2, hpend2]
  · simp [Bool.not_eq_true] at hra
    simp [hra]

/-- Witness for C5 at a concrete input: the spec scenario — `add("Cat")` and
`add("Dog")` are flushed as one batch, the transport rejects it with an
unclassified error, and both Adds revert while the flush tracker reads Error
with kind Unknown and the transport message. -/
theorem flush_failure_reverts_only_failed_batch_witness :
    ((applyEvents [.addCall "Cat", .addCall "Dog", .fireEvent] initCoordinator).inFlight
        = some [⟨0, .addOp "Cat"⟩, ⟨1, .addOp "Dog"⟩])
    ∧ (((flushFail ⟨.other "unclassified", "boom"⟩
          (applyEvents [.addCall "Cat", .addCall "Dog", .fireEvent] initCoordinator)).active
        = (applyEvents [.addCall "Cat", .addCall "Dog", .fireEvent] initCoordinator).active)
    ∧ (flushFail ⟨.other "unclassified", "boom"⟩
          (applyEvents [.addCall "Cat", .addCall "Dog", .fireEvent] initCoordinator)).inFlight
        = none
    ∧ ([⟨0, .addOp "Cat"⟩, ⟨1, .addOp "Dog"⟩] : List SubscriptionRequest).all
        (fun r => !isAddReq r
          || (!activeHas (flushFail ⟨.other "unclassified", "boom"⟩
                (applyEvents [.addCall "Cat", .addCall "Dog", .fireEvent] initCoordinator)) r.id
              && !hasAddFor (flushFail ⟨.other "unclassified", "boom"⟩
                  (applyEvents [.addCall "Cat", .addCall "Dog", .fireEvent]
                    initCoordinator)).pending r.id)) = true
    ∧ (flushFail ⟨.other "unclassified", "boom"⟩
          (applyEvents [.addCall "Cat", .addCall "Dog", .fireEvent] initCoordinator)).flushResult
        = ⟨.error, none, some ⟨classify (RawTag.other "unclassified"), "boom"⟩⟩) :=
  ⟨by decide,
    flush_failure_reverts_only_failed_batch
      [.addCall "Cat", .addCall "Dog", .fireEvent]
      ⟨.other "unclassified", "boom"⟩
      [⟨0, .addOp "Cat"⟩, ⟨1, .addOp "Dog"⟩] (by decide)⟩

/-- C8: a transport failure of any wrapped operation — login, register,
reset-password, or subscription flush — reaches exactly that operation's
result record: after an invocation and a failed resolution the record is in
the Error state (the failure is not swallowed), its error carries the
transport-provided message and a kind classified into the closed taxonomy,
and the classification never produces a kind outside
InvalidCredentials, MalformedRequest, Conflict, Unknown. -/
theorem transport_failure_classified_and_surfaced {T : Type} (op : WrappedOperation)
    (ts0 : OperationTrackers T) (raw : RawTransportError) :
    (((settleOperationFailure op (invokeOperation op ts0).2 raw
        (invokeOperation op ts0).1) op).result.state = .error)
    ∧ (((settleOperationFailure op (invokeOperation op ts0).2 raw
        (invokeOperation op ts0).1) op).result.error
        = some ⟨classify raw.tag, raw.message⟩)
    ∧ (classify raw.tag = .invalidCredentials ∨ classify raw.tag = .malformedRequest
        ∨ classify raw.tag = .conflict ∨ classify raw.tag = .unknown) := by
  have hs : (settleOperationFailure op (invokeOperation op ts0).2 raw
        (invokeOperation op ts0).1) op
      = resolveFailure (invokeOperation op ts0).2 (classifyErr raw)
          ((invokeOperation op ts0).1 op) := by
    rw [settleOperationFailure]
    simp
  have hi : (invokeOperation op ts0).1 op = (invoke (ts0 op)).1 := by
    rw [invokeOperation]
    simp
  have hr : resolveFailure (invokeOperation op ts0).2 (classifyErr raw)
        ((invokeOperation op ts0).1 op)
      = { (invoke (ts0 op)).1 with
          result := ⟨.error, none, some (classifyErr raw)⟩ } := by
    rw [hi]
    rw [resolveFailure]
    simp [invoke, invokeOperation]
  refine ⟨?_, ?_, ?_⟩
  · rw [hs, hr]
  · rw [hs, hr]
    rfl
  · cases raw with
    | mk tag message => cases tag <;> simp [classify]

end RealmIdea
